import Mathlib

/- Shallow embedding of the retrieval-ranking engine of the tdt4215
repository: the cutoff selection of `_index_searcher`, the similarity
ranking of `task_3`, the vector construction of `create_vectors`
(src/index.py), the hierarchical aggregation and boosting of `task_6a`
and the ensemble combination of `task_6b` (src/tasks.py).

Python floats are modelled as exact rationals or reals; Python dicts and
Counters are modelled as association lists whose entry order mirrors the
dict insertion order; exceptions (ZeroDivisionError, ValueError) are
modelled as `none` / dedicated error constructors. -/

/-- Association-list lookup, modelling Python dict access: the value of
the first entry carrying the given key. -/
def alookup {β : Type} (k : String) : List (String × β) → Option β
  | [] => none
  | p :: rest => if p.1 = k then some p.2 else alookup k rest

/-- Python `d.get(k, 0)`: lookup with default `0`. -/
def aget {β : Type} [Zero β] (k : String) (l : List (String × β)) : β :=
  (alookup k l).getD 0

/-- The per-hit cutoff walk of `_index_searcher` (src/tasks.py lines
166-172): walking the hits of one line in order, stop as soon as the
score is below `lower` with a code already accepted, or the score is
more than `distance` below the top score, or more than `maxCount` codes
are already accepted; otherwise append the hit's code. -/
def cutoffWalk (lower distance : ℚ) (maxCount : ℕ) (top : ℚ) :
    List (String × ℚ) → List String → List String
  | [], codes => codes
  | hit :: rest, codes =>
    if (hit.2 < lower ∧ codes ≠ []) ∨ hit.2 + distance < top ∨ maxCount < codes.length then
      codes
    else
      cutoffWalk lower distance maxCount top rest (codes ++ [hit.1])

/-- The per-line code selection of `_index_searcher`: the walk over all
hits, the gap condition comparing against the first hit's score
(`objs[0].score`); an empty hit list yields an empty code list. -/
def select (hits : List (String × ℚ)) (lower distance : ℚ) (maxCount : ℕ) : List String :=
  match hits with
  | [] => []
  | top :: _ => cutoffWalk lower distance maxCount top.2 hits []

/-- Python `code.rsplit('.', 1)[0]` (the `parent` lambda of `task_6a`,
src/tasks.py line 125): the code with its last dot-separated segment
removed, or the whole code when it contains no dot. -/
def parentCode (s : String) : String :=
  if s.data.contains '.' then
    String.mk (((s.data.reverse.dropWhile (fun c => c ≠ '.')).drop 1).reverse)
  else s

/-- Python `code.count('.')` (src/tasks.py lines 128 and 131): the
number of hierarchy separators of a chapter code. -/
def dotCount (s : String) : ℕ := s.data.count '.'

/-- The `similars` list of one Phase 2 pass of `task_6a` (src/tasks.py
lines 130-131): the scores of the chapters at the given depth whose
parent is `obj` and whose accumulated score exceeds the 0.3 threshold,
in `scored` order. -/
def similars (scored : List (String × ℚ)) (obj : String) (depth : ℕ) : List ℚ :=
  (scored.filter (fun p => (3/10 : ℚ) < p.2 ∧ obj = parentCode p.1 ∧ dotCount p.1 = depth)).map
    Prod.snd

/-- The boosted parent score of src/tasks.py lines 133-134:
`0.5 + len(similars) / 10 + max([scored.get(obj, 0)] + similars)`. -/
def boostValue (scored : List (String × ℚ)) (obj : String) (depth : ℕ) : ℚ :=
  1/2 + ((similars scored obj depth).length : ℚ) / 10 +
    (similars scored obj depth).foldl max (aget obj scored)

/-- Construction of the `updated` dict of one Phase 2 pass (src/tasks.py
lines 126-134): every chapter of `scored` at the given depth whose
parent has more than one sibling above the threshold writes the parent's
boosted score into `updated`.  Python dict insertion keeps the position
of the first write, and repeated triggers write the same value, so a key
already present is left untouched. -/
def passUpdatedGo (scored : List (String × ℚ)) (depth : ℕ) :
    List (String × ℚ) → List (String × ℚ) → List (String × ℚ)
  | [], upd => upd
  | p :: rest, upd =>
    if dotCount p.1 = depth ∧ 1 < (similars scored (parentCode p.1) depth).length then
      if (alookup (parentCode p.1) upd).isSome then
        passUpdatedGo scored depth rest upd
      else
        passUpdatedGo scored depth rest
          (upd ++ [(parentCode p.1, boostValue scored (parentCode p.1) depth)])
    else passUpdatedGo scored depth rest upd

/-- The `updated` dict of one Phase 2 pass of `task_6a`. -/
def passUpdated (scored : List (String × ℚ)) (depth : ℕ) : List (String × ℚ) :=
  passUpdatedGo scored depth scored []

/-- Python `scored.update(updated)` (src/tasks.py line 135): keys of
`scored` keep their position and receive the updated value when present
in `updated`; keys only in `updated` are appended. -/
def dictUpdate (scored upd : List (String × ℚ)) : List (String × ℚ) :=
  scored.map (fun p => (p.1, (alookup p.1 upd).getD p.2)) ++
    upd.filter (fun q => (alookup q.1 scored).isNone)

/-- One pass of the Phase 2 boosting loop of `task_6a` at one depth. -/
def boostPass (scored : List (String × ℚ)) (depth : ℕ) : List (String × ℚ) :=
  dictUpdate scored (passUpdated scored depth)

/-- Phase 2 of `task_6a` (src/tasks.py lines 124-135):
`for depth in range(4, 0, -1)`, i.e. one boosting pass at each of the
depths 4, 3, 2, 1, deepest first. -/
def phase2 (scored : List (String × ℚ)) : List (String × ℚ) :=
  boostPass (boostPass (boostPass (boostPass scored 4) 3) 2) 1

/-- Python `s.startswith(pre)`: prefix test on the character data of
the strings. -/
def startswith (s pre : String) : Bool :=
  pre.data.isPrefixOf s.data

/-- An ICD-10 code object as used by `task_6a`: the formatted code
string and the optional parent code from the `subClassOf` relation
(src/parse.py line 203); Python's falsy parent (None or the empty
string) is modelled as `none`. -/
structure ICDCode where
  code : String
  parent : Option String

/-- The indirect ICD codes of Phase 1b of `task_6a` (src/tasks.py lines
112-113): `[i.code for i in ICD.ALL.values() if ICD.ALL[code].parent and
i.code.startswith(ICD.ALL[code].parent)]`.  `icdAll` is the `ICD.ALL`
dict keyed by short code, in insertion order.  An accepted code missing
from the dict would raise a KeyError in Python; it is modelled as
contributing no indirect codes. -/
def icdOthers (icdAll : List (String × ICDCode)) (code : String) : List String :=
  match (alookup code icdAll).bind ICDCode.parent with
  | none => []
  | some par =>
    ((icdAll.map Prod.snd).filter (fun i => startswith i.code par)).map ICDCode.code

/-- The indirect ATC codes of Phase 1b of `task_6a` (src/tasks.py line
118): `[i.code for i in ATC.ALL if code.startswith(i.code)]`; `ATC.ALL`
is the registration-ordered list of ATC code strings. -/
def atcOthers (atcAll : List String) (code : String) : List String :=
  atcAll.filter (fun i => startswith code i)

/-- Modelled from the words of the specification, for the refinement
comparison of Phase 1b: the sibling codes of an accepted code are the
*other* codes of the same system whose identifier shares the accepted
code's immediate parent prefix `par`. -/
def specSiblings (allCodes : List String) (code par : String) : List String :=
  allCodes.filter (fun c => c ≠ code ∧ startswith c par)

/-- One key update of Python
`counter.update({i: weight * codes.count(i) for i in set(codes)})`
(src/tasks.py line 108): an existing key gains `w` in place, a new key
is appended. -/
def counterAdd (cnt : List (String × ℚ)) (k : String) (w : ℚ) : List (String × ℚ) :=
  if (alookup k cnt).isSome then
    cnt.map (fun p => if p.1 = k then (p.1, p.2 + w) else p)
  else cnt ++ [(k, w)]

/-- The `count_chapter` helper of `task_6a` (src/tasks.py lines
106-108): every chapter mapped from `code` gains `weight` per occurrence
in the chapter map entry. -/
def countChapter (chMap : List (String × List String)) (code : String) (w : ℚ)
    (cnt : List (String × ℚ)) : List (String × ℚ) :=
  let codes := (alookup code chMap).getD []
  codes.dedup.foldl (fun c i => counterAdd c i (w * (codes.count i : ℚ))) cnt

/-- Phases 1 and 1b of `task_6a` (src/tasks.py lines 104-121): weight 1
for the chapters of each accepted ICD and ATC code, weight 0.1 for the
chapters of each of its indirect codes. -/
def phase1 (icdAll : List (String × ICDCode)) (atcAll : List String)
    (icdChMap atcChMap : List (String × List String))
    (icdCodes atcCodes : List String) : List (String × ℚ) :=
  let afterIcd := icdCodes.foldl (fun cnt code =>
    (icdOthers icdAll code).foldl (fun c other => countChapter icdChMap other (1/10) c)
      (countChapter icdChMap code 1 cnt)) []
  atcCodes.foldl (fun cnt code =>
    (atcOthers atcAll code).foldl (fun c other => countChapter atcChMap other (1/10) c)
      (countChapter atcChMap code 1 cnt)) afterIcd

/-- The complete evidence scoring of `task_6a`: Phase 1 evidence
gathering followed by the Phase 2 boosting passes. -/
def task6aScored (icdAll : List (String × ICDCode)) (atcAll : List String)
    (icdChMap atcChMap : List (String × List String))
    (icdCodes atcCodes : List String) : List (String × ℚ) :=
  phase2 (phase1 icdAll atcAll icdChMap atcChMap icdCodes atcCodes)

/-- Python `Counter.__add__`, used as `overall = res3 + res6` in
`task_6b` (src/tasks.py line 145): keys of the left counter come first
with the summed value, then the keys only in the right counter; entries
whose resulting value is not positive are dropped. -/
def pyCounterAdd {α : Type} [LinearOrderedField α] (a b : List (String × α)) :
    List (String × α) :=
  a.filterMap (fun p =>
    if 0 < p.2 + aget p.1 b then some (p.1, p.2 + aget p.1 b) else none) ++
    b.filter (fun q => (alookup q.1 a).isNone ∧ 0 < q.2)

/-- The ensemble combination of `task_6b` (src/tasks.py lines 143-145):
`ranking_a` rescaled by the multiplicative `weight_a` (the
implementation uses the fixed weight 200), then summed per chapter via
Counter addition. -/
def combine {α : Type} [LinearOrderedField α] (ranking_a ranking_b : List (String × α))
    (weight_a : α) : List (String × α) :=
  pyCounterAdd (ranking_a.map (fun p => (p.1, p.2 * weight_a))) ranking_b

/-- Exception-propagating traversal: the Python dict comprehension of
`create_vectors` evaluates its entries in order and the first exception
aborts the whole comprehension. -/
def optTraverse {γ δ : Type} (f : γ → Option δ) : List γ → Option (List δ)
  | [] => some []
  | x :: xs => (f x).bind (fun y => (optTraverse f xs).map (fun ys => y :: ys))

/-- Python `_idf(N, n) = log(N / n)` (src/index.py lines 100-101), the
default inverse document frequency.  `n = 0` raises ZeroDivisionError,
and `N = 0` (with `n > 0`) makes the argument of `log` zero, a
ValueError; both are modelled as `none`. -/
noncomputable def pyIdf (N n : ℕ) : Option ℝ :=
  if n = 0 then none
  else if N = 0 then none
  else some (Real.log ((N : ℝ) / (n : ℝ)))

/-- Python `_tf_log_norm(frequency) = 1 + log(frequency)` (src/index.py
lines 106-107); the raw counts handed over by the index are at least 1. -/
noncomputable def pyTfLogNorm (w : ℕ) : ℝ := 1 + Real.log (w : ℝ)

/-- The `calc_idf` closure of `create_vectors` (src/index.py lines
118-121): the document frequency of a term is summed over the therapy
and case searchers, and `N` is the combined corpus size. -/
noncomputable def calcIdf (idf : ℕ → ℕ → Option ℝ) (N : ℕ) (tdf cdf : String → ℕ)
    (t : String) : Option ℝ :=
  idf N (tdf t + cdf t)

/-- The vector comprehension of `create_vectors` (src/index.py lines
128-129): `{t: tf(w) * calc_idf(t) for t, w in vector}`, with `tf` and
`idf` pluggable exactly as in the source.  An exception raised by
`calc_idf` aborts the whole vectorization. -/
noncomputable def createVector (tf : ℕ → ℝ) (idf : ℕ → ℕ → Option ℝ) (N : ℕ)
    (tdf cdf : String → ℕ) (raw : List (String × ℕ)) : Option (List (String × ℝ)) :=
  optTraverse (fun p => (calcIdf idf N tdf cdf p.1).map (fun i => (p.1, tf p.2 * i))) raw

/-- The `matches` list of `task_3` (src/tasks.py lines 48-49):
`[chapter.vector[t] * v for t, v in case.vector.items() if t in chapter.vector]`. -/
def matchesList (chapterV caseV : List (String × ℝ)) : List ℝ :=
  caseV.filterMap (fun p => (alookup p.1 chapterV).map (fun w => w * p.2))

/-- Python `sum(i ** 2 for i in vector.values())` (src/tasks.py lines
53-54): the squared Euclidean magnitude over all of a vector's terms. -/
def sqMagnitude (v : List (String × ℝ)) : ℝ := (v.map (fun p => p.2 ^ 2)).sum

/-- Outcome of one chapter-case similarity computation of `task_3`. -/
inductive PairScore where
  | noMatch : PairScore
  | divisionError : PairScore
  | scored : ℝ → PairScore

/-- One similarity computation of `task_3` (src/tasks.py lines 48-56):
the pair is skipped when `matches` is empty, and the division raises
ZeroDivisionError when the product of the magnitudes is zero. -/
noncomputable def scorePair (chapterV caseV : List (String × ℝ)) : PairScore :=
  if matchesList chapterV caseV = [] then PairScore.noMatch
  else if Real.sqrt (sqMagnitude chapterV) * Real.sqrt (sqMagnitude caseV) = 0 then
    PairScore.divisionError
  else
    PairScore.scored ((matchesList chapterV caseV).sum /
      (Real.sqrt (sqMagnitude chapterV) * Real.sqrt (sqMagnitude caseV)))

/-- The results accumulation of `task_3` (src/tasks.py lines 46-56):
chapters are walked in `Therapy.ALL` order; a pair without shared terms
is skipped, and a ZeroDivisionError aborts the whole task (`none`). -/
noncomputable def task3Results (chapters : List (String × List (String × ℝ)))
    (caseV : List (String × ℝ)) : Option (List (String × ℝ)) :=
  chapters.foldr (fun ch acc => acc.bind (fun rest =>
    match scorePair ch.2 caseV with
    | PairScore.noMatch => some rest
    | PairScore.divisionError => none
    | PairScore.scored s => some ((ch.1, s) :: rest))) (some [])

/-- Python `sorted(results, key=itemgetter(1), reverse=True)` (src/tasks.py
line 59): a stable descending sort on the score component — Python's
sort is stable, so equal scores keep their `Therapy.ALL` order. -/
noncomputable def sortDesc (l : List (String × ℝ)) : List (String × ℝ) :=
  List.insertionSort (fun p q => q.2 ≤ p.2) l

/-- Python `float('%.2f' % s)`: the score as formatted to two decimal
places and re-parsed.  (`round` is round-half-up; the exact tie-breaking
of float formatting is immaterial to the claims, which stay away from
half-cent ties.) -/
noncomputable def round2 (x : ℝ) : ℝ := ((round (x * 100) : ℤ) : ℝ) / 100

/-- The formatted ranking output shared by `task_3` and `task_6a`
(src/tasks.py lines 58-59 and 137-138): `('%.2f' % s, str(c))` pairs,
modelled as the two-decimal rounded score paired with the chapter
identifier. -/
noncomputable def fmtRanking (l : List (String × ℝ)) : List (ℝ × String) :=
  l.map (fun p => (round2 p.2, p.1))

/-- `task_3` (src/tasks.py lines 44-59): similarity scores against all
chapters, sorted descending, truncated to `limit`, formatted. -/
noncomputable def task3 (chapters : List (String × List (String × ℝ)))
    (caseV : List (String × ℝ)) (limit : ℕ) : Option (List (ℝ × String)) :=
  (task3Results chapters caseV).map (fun res => fmtRanking ((sortDesc res).take limit))

/-- `task_6b` (src/tasks.py lines 141-147): the formatted rankings of
`task_3` and `task_6a` are re-parsed (`float(s)`), the `task_3` scores
rescaled by 200, and the two counters added. -/
noncomputable def task6bOverall (res3 res6 : List (ℝ × String)) : List (String × ℝ) :=
  pyCounterAdd (res3.map (fun p => (p.2, p.1 * 200))) (res6.map (fun p => (p.2, p.1)))

/-- View of the `matches` construction of `task_3` keeping both factors
of each product: the (chapter weight, case weight) pairs of the shared
terms.  `matchesList` is its image under multiplication; the view
carries the Cauchy-Schwarz argument. -/
def pairsOf (chapterV caseV : List (String × ℝ)) : List (ℝ × ℝ) :=
  caseV.filterMap (fun p => (alookup p.1 chapterV).map (fun w => (w, p.2)))

/-- The squared magnitude of a vector restricted to the entries whose
term belongs to `keys`; used to bound the shared-term magnitude by the
full magnitude of `task_3`. -/
def sqMagOn (v : List (String × ℝ)) (keys : List String) : ℝ :=
  ((v.filter (fun e => e.1 ∈ keys)).map (fun p => p.2 ^ 2)).sum

theorem cutoffWalk_length_le (lower distance : ℚ) (maxCount : ℕ) (top : ℚ) :
    ∀ (hits : List (String × ℚ)) (codes : List String),
      codes.length ≤ maxCount + 1 →
      (cutoffWalk lower distance maxCount top hits codes).length ≤ maxCount + 1 := by
  intro hits
  induction hits with
  | nil => intro codes h; simpa [cutoffWalk] using h
  | cons hit rest ih =>
    intro codes h
    rw [cutoffWalk]
    by_cases hc : (hit.2 < lower ∧ codes ≠ []) ∨ hit.2 + distance < top ∨ maxCount < codes.length
    · simpa [hc] using h
    · rw [if_neg hc]
      apply ih
      push_neg at hc
      have := hc.2.2
      simp only [List.length_append, List.length_cons, List.length_nil]
      omega

/-- C3 counterexample: with `max_count = 2`, four top hits of equal
score produce three accepted codes, because the walk only stops once
`len(codes) > max` already holds; the claim says the accepted list never
contains more than `max_count` codes. -/
theorem c3_counterexample :
    select [("a", 10), ("b", 10), ("c", 10), ("d", 10)] 2 2 2 = ["a", "b", "c"] ∧
    2 < (select [("a", 10), ("b", 10), ("c", 10), ("d", 10)] 2 2 2).length := by
  norm_num [select, cutoffWalk]

/-- C3 amended: the cutoff walk of `_index_searcher` stops before
accepting a further hit only once the accepted count exceeds
`max_count`, so the returned accepted-code list never contains more than
`max_count + 1` codes. -/
theorem c3_cutoff_bound (hits : List (String × ℚ)) (lower distance : ℚ) (maxCount : ℕ) :
    (select hits lower distance maxCount).length ≤ maxCount + 1 := by
  cases hits with
  | nil => simp [select]
  | cons top rest =>
    exact cutoffWalk_length_le lower distance maxCount top.2 (top :: rest) [] (by simp)

theorem alookup_append {β : Type} (k : String) (l₁ l₂ : List (String × β)) :
    alookup k (l₁ ++ l₂) = (alookup k l₁).orElse (fun _ => alookup k l₂) := by
  induction l₁ with
  | nil => simp [alookup]
  | cons p rest ih =>
    by_cases h : p.1 = k
    · simp [alookup, h]
    · simp [alookup, h, ih]

theorem mem_of_alookup {β : Type} {k : String} {v : β} :
    ∀ {l : List (String × β)}, alookup k l = some v → (k, v) ∈ l := by
  intro l
  induction l with
  | nil => intro h; simp [alookup] at h
  | cons p rest ih =>
    intro h
    rw [alookup] at h
    by_cases hp : p.1 = k
    · rw [if_pos hp] at h
      obtain ⟨a, b⟩ := p
      obtain rfl : a = k := hp
      obtain rfl : b = v := by simpa using h
      exact List.mem_cons_self _ _
    · rw [if_neg hp] at h
      exact List.mem_cons_of_mem _ (ih h)

theorem alookup_eq_none_of_not_mem {β : Type} {k : String} :
    ∀ {l : List (String × β)}, k ∉ l.map Prod.fst → alookup k l = none := by
  intro l
  induction l with
  | nil => intro _; rfl
  | cons p rest ih =>
    intro h
    simp only [List.map_cons, List.mem_cons] at h
    push_neg at h
    rw [alookup, if_neg (fun he => h.1 he.symm)]
    exact ih h.2

theorem alookup_of_mem_nodup {β : Type} {k : String} {v : β} :
    ∀ {l : List (String × β)}, (k, v) ∈ l → (l.map Prod.fst).Nodup → alookup k l = some v := by
  intro l
  induction l with
  | nil => intro h; simp at h
  | cons p rest ih =>
    intro hm hnd
    simp only [List.map_cons, List.nodup_cons] at hnd
    rcases List.mem_cons.1 hm with rfl | hm'
    · simp [alookup]
    · have hk : p.1 ≠ k := by
        intro he
        exact hnd.1 (he ▸ (List.mem_map.2 ⟨(k, v), hm', rfl⟩))
      rw [alookup, if_neg hk]
      exact ih hm' hnd.2

theorem alookup_map_value {β γ : Type} (g : β → γ) (k : String) :
    ∀ l : List (String × β),
      alookup k (l.map (fun p => (p.1, g p.2))) = (alookup k l).map g := by
  intro l
  induction l with
  | nil => simp [alookup]
  | cons p rest ih =>
    by_cases h : p.1 = k
    · simp [alookup, h]
    · simp [alookup, h, ih]

theorem alookup_map_entry_none {β γ : Type} (f : (String × β) → γ) (k : String) :
    ∀ l : List (String × β), alookup k l = none →
      alookup k (l.map (fun p => (p.1, f p))) = none := by
  intro l
  induction l with
  | nil => intro _; rfl
  | cons p rest ih =>
    intro h
    rw [alookup] at h
    by_cases hp : p.1 = k
    · rw [if_pos hp] at h; exact absurd h (by simp)
    · rw [if_neg hp] at h
      simp only [List.map_cons]
      rw [alookup, if_neg hp]
      exact ih h

theorem alookup_dictUpdate_map (upd : List (String × ℚ)) (k : String) :
    ∀ (l : List (String × ℚ)) (s : ℚ), alookup k l = some s →
      alookup k (l.map (fun p => (p.1, (alookup p.1 upd).getD p.2))) =
        some ((alookup k upd).getD s) := by
  intro l
  induction l with
  | nil => intro s h; simp [alookup] at h
  | cons p rest ih =>
    intro s h
    rw [alookup] at h
    by_cases hp : p.1 = k
    · rw [if_pos hp] at h
      obtain rfl : p.2 = s := by simpa using h
      simp only [List.map_cons]
      rw [alookup, if_pos hp, hp]
    · rw [if_neg hp] at h
      simp only [List.map_cons]
      rw [alookup, if_neg hp]
      exact ih s h

theorem alookup_filter_keep {β : Type} (scored : List (String × β)) (k : String)
    (h : alookup k scored = none) :
    ∀ upd : List (String × β),
      alookup k (upd.filter (fun q => (alookup q.1 scored).isNone)) = alookup k upd := by
  intro upd
  induction upd with
  | nil => rfl
  | cons q rest ih =>
    by_cases hq : q.1 = k
    · have : (alookup q.1 scored).isNone = true := by rw [hq, h]; rfl
      rw [List.filter_cons, if_pos (by simpa using this)]
      rw [alookup, if_pos hq, alookup, if_pos hq]
    · rw [List.filter_cons]
      by_cases hk : (alookup q.1 scored).isNone = true
      · rw [if_pos (by simpa using hk)]
        rw [alookup, if_neg hq, alookup, if_neg hq]
        exact ih
      · rw [if_neg (by simpa using hk)]
        rw [ih, alookup, if_neg hq]

theorem alookup_dictUpdate_of_upd (scored upd : List (String × ℚ)) (k : String) (v : ℚ)
    (h : alookup k upd = some v) :
    alookup k (dictUpdate scored upd) = some v := by
  rw [dictUpdate, alookup_append]
  cases hs : alookup k scored with
  | some s => rw [alookup_dictUpdate_map upd k scored s hs]; simp [h]
  | none =>
    rw [alookup_map_entry_none (fun p => (alookup p.1 upd).getD p.2) k scored hs]
    simp [alookup_filter_keep scored k hs upd, h]

theorem alookup_dictUpdate_of_none (scored upd : List (String × ℚ)) (k : String)
    (h : alookup k upd = none) :
    alookup k (dictUpdate scored upd) = alookup k scored := by
  rw [dictUpdate, alookup_append]
  cases hs : alookup k scored with
  | some s => rw [alookup_dictUpdate_map upd k scored s hs]; simp [h]
  | none =>
    rw [alookup_map_entry_none (fun p => (alookup p.1 upd).getD p.2) k scored hs]
    simp [alookup_filter_keep scored k hs upd, h]

theorem passUpdatedGo_values (scored : List (String × ℚ)) (depth : ℕ) :
    ∀ (l upd : List (String × ℚ)),
      (∀ q ∈ upd, q.2 = boostValue scored q.1 depth) →
      ∀ q ∈ passUpdatedGo scored depth l upd, q.2 = boostValue scored q.1 depth := by
  intro l
  induction l with
  | nil => intro upd h q hq; exact h q (by simpa [passUpdatedGo] using hq)
  | cons p rest ih =>
    intro upd h q hq
    rw [passUpdatedGo] at hq
    by_cases h₁ : dotCount p.1 = depth ∧ 1 < (similars scored (parentCode p.1) depth).length
    · rw [if_pos h₁] at hq
      by_cases h₂ : (alookup (parentCode p.1) upd).isSome
      · rw [if_pos h₂] at hq
        exact ih upd h q hq
      · rw [if_neg h₂] at hq
        refine ih _ ?_ q hq
        intro q' hq'
        rcases List.mem_append.1 hq' with h' | h'
        · exact h q' h'
        · obtain rfl : q' = (parentCode p.1, boostValue scored (parentCode p.1) depth) := by
            simpa using h'
          rfl
    · rw [if_neg h₁] at hq
      exact ih upd h q hq

theorem alookup_passUpdatedGo_mono (scored : List (String × ℚ)) (depth : ℕ) (k : String)
    (v : ℚ) :
    ∀ (l upd : List (String × ℚ)), alookup k upd = some v →
      alookup k (passUpdatedGo scored depth l upd) = some v := by
  intro l
  induction l with
  | nil => intro upd h; simpa [passUpdatedGo] using h
  | cons p rest ih =>
    intro upd h
    rw [passUpdatedGo]
    by_cases h₁ : dotCount p.1 = depth ∧ 1 < (similars scored (parentCode p.1) depth).length
    · rw [if_pos h₁]
      by_cases h₂ : (alookup (parentCode p.1) upd).isSome
      · rw [if_pos h₂]; exact ih upd h
      · rw [if_neg h₂]
        refine ih _ ?_
        rw [alookup_append, h]; rfl
    · rw [if_neg h₁]; exact ih upd h

theorem alookup_passUpdatedGo_hit (scored : List (String × ℚ)) (depth : ℕ) (obj : String)
    (hlen : 1 < (similars scored obj depth).length) :
    ∀ (l upd : List (String × ℚ)),
      (∀ q ∈ upd, q.2 = boostValue scored q.1 depth) →
      ((∃ p ∈ l, dotCount p.1 = depth ∧ parentCode p.1 = obj) ∨
        alookup obj upd = some (boostValue scored obj depth)) →
      alookup obj (passUpdatedGo scored depth l upd) =
        some (boostValue scored obj depth) := by
  intro l
  induction l with
  | nil =>
    intro upd _ h
    rcases h with ⟨p, hp, _⟩ | h
    · exact absurd hp (List.not_mem_nil p)
    · simpa [passUpdatedGo] using h
  | cons p rest ih =>
    intro upd hinv h
    rw [passUpdatedGo]
    by_cases h₁ : dotCount p.1 = depth ∧ 1 < (similars scored (parentCode p.1) depth).length
    · rw [if_pos h₁]
      by_cases h₂ : (alookup (parentCode p.1) upd).isSome
      · rw [if_pos h₂]
        refine ih upd hinv ?_
        rcases h with ⟨q, hq, hqc⟩ | h
        · rcases List.mem_cons.1 hq with rfl | hq'
          · right
            obtain ⟨w, hw⟩ := Option.isSome_iff_exists.1 h₂
            have hw' : alookup obj upd = some w := hqc.2 ▸ hw
            have hww : w = boostValue scored obj depth := by
              simpa using hinv (obj, w) (mem_of_alookup hw')
            rw [hw', hww]
          · exact Or.inl ⟨q, hq', hqc⟩
        · exact Or.inr h
      · rw [if_neg h₂]
        have h₂' : alookup (parentCode p.1) upd = none := by
          simpa using h₂
        refine ih _ ?_ ?_
        · intro q' hq'
          rcases List.mem_append.1 hq' with h' | h'
          · exact hinv q' h'
          · obtain rfl : q' = (parentCode p.1, boostValue scored (parentCode p.1) depth) := by
              simpa using h'
            rfl
        · rcases h with ⟨q, hq, hqc⟩ | h
          · rcases List.mem_cons.1 hq with rfl | hq'
            · right
              rw [← hqc.2, alookup_append, h₂']
              simp [alookup]
            · exact Or.inl ⟨q, hq', hqc⟩
          · right
            rw [alookup_append, h]
            rfl
    · rw [if_neg h₁]
      refine ih upd hinv ?_
      rcases h with ⟨q, hq, hqc⟩ | h
      · rcases List.mem_cons.1 hq with rfl | hq'
        · exact absurd ⟨hqc.1, hqc.2 ▸ hlen⟩ h₁
        · exact Or.inl ⟨q, hq', hqc⟩
      · exact Or.inr h

theorem two_le_length_of_mem {α : Type} {a b : α} :
    ∀ {l : List α}, a ∈ l → b ∈ l → a ≠ b → 2 ≤ l.length := by
  intro l
  induction l with
  | nil => intro ha; simp at ha
  | cons x xs ih =>
    intro ha hb hab
    rcases List.mem_cons.1 ha with rfl | ha'
    · rcases List.mem_cons.1 hb with rfl | hb'
      · exact absurd rfl hab
      · have h1 : 1 ≤ xs.length := List.length_pos.2 (List.ne_nil_of_mem hb')
        simp only [List.length_cons]
        omega
    · rcases List.mem_cons.1 hb with rfl | hb'
      · have h1 : 1 ≤ xs.length := List.length_pos.2 (List.ne_nil_of_mem ha')
        simp only [List.length_cons]
        omega
      · have := ih ha' hb' hab
        simp only [List.length_cons]
        omega

theorem le_foldl_max : ∀ (l : List ℚ) (a : ℚ), a ≤ l.foldl max a := by
  intro l
  induction l with
  | nil => intro a; simp
  | cons x xs ih =>
    intro a
    rw [List.foldl_cons]
    exact le_trans (le_max_left a x) (ih (max a x))

theorem aget_le_boostValue (scored : List (String × ℚ)) (obj : String) (depth : ℕ) :
    aget obj scored ≤ boostValue scored obj depth := by
  rw [boostValue]
  have h1 : (0:ℚ) ≤ 1/2 + ((similars scored obj depth).length : ℚ) / 10 := by positivity
  have h2 := le_foldl_max (similars scored obj depth) (aget obj scored)
  linarith

theorem boostPass_mono (scored : List (String × ℚ)) (depth : ℕ) (k : String) (s : ℚ)
    (h : alookup k scored = some s) :
    ∃ t, alookup k (boostPass scored depth) = some t ∧ s ≤ t := by
  cases hu : alookup k (passUpdated scored depth) with
  | none =>
    refine ⟨s, ?_, le_refl s⟩
    rw [boostPass, alookup_dictUpdate_of_none _ _ _ hu, h]
  | some v =>
    have hv : v = boostValue scored k depth := by
      have hm := mem_of_alookup hu
      rw [passUpdated] at hm
      simpa using
        passUpdatedGo_values scored depth scored [] (by intro q hq; simp at hq) (k, v) hm
    refine ⟨v, ?_, ?_⟩
    · rw [boostPass, alookup_dictUpdate_of_upd _ _ _ _ hu]
    · have hs : aget k scored = s := by rw [aget, h]; rfl
      rw [hv, ← hs]
      exact aget_le_boostValue scored k depth

/-- C2: Phase 2 boosting of `task_6a` never decreases the score of any
chapter already present in the evidence mapping: every key of `scored`
is still present after the four boosting passes, with a score at least
as large as before. -/
theorem c2_boost_nondecrease (scored : List (String × ℚ)) (k : String) (s : ℚ)
    (h : alookup k scored = some s) :
    ∃ t, alookup k (phase2 scored) = some t ∧ s ≤ t := by
  obtain ⟨t₄, h₄, l₄⟩ := boostPass_mono scored 4 k s h
  obtain ⟨t₃, h₃, l₃⟩ := boostPass_mono _ 3 k t₄ h₄
  obtain ⟨t₂, h₂, l₂⟩ := boostPass_mono _ 2 k t₃ h₃
  obtain ⟨t₁, h₁, l₁⟩ := boostPass_mono _ 1 k t₂ h₂
  refine ⟨t₁, ?_, by linarith⟩
  rw [phase2]
  exact h₁

/-- C2 witness: a concrete one-chapter evidence mapping passes through
Phase 2 with its score intact. -/
theorem c2_boost_nondecrease_witness :
    alookup "a.b" [("a.b", (2/5 : ℚ))] = some (2/5) ∧
    ∃ t, alookup "a.b" (phase2 [("a.b", (2/5 : ℚ))]) = some t ∧ (2/5 : ℚ) ≤ t := by
  have h : alookup "a.b" [("a.b", (2/5 : ℚ))] = some (2/5) := by
    norm_num [alookup]
  exact ⟨h, c2_boost_nondecrease _ _ _ h⟩

/-- C1: in a Phase 2 boosting pass of `task_6a` at depth `d` (the passes
run at depths 4, 3, 2, 1, deepest first), whenever two chapters at depth
`d` share the same parent (obtained by stripping the last dot-separated
segment) and each has accumulated score above the 0.3 threshold, the
pass sets the parent chapter's score to
`0.5 + count(similar siblings)/10 + max(existing parent score, sibling scores)`,
where the similar siblings are exactly the chapters at depth `d` with
that parent and score above 0.3, and the existing parent score defaults
to 0. -/
theorem c1_parent_boost (scored : List (String × ℚ)) (depth : ℕ) (c₁ c₂ obj : String)
    (s₁ s₂ : ℚ) (h₁ : (c₁, s₁) ∈ scored) (h₂ : (c₂, s₂) ∈ scored) (hne : c₁ ≠ c₂)
    (hd₁ : dotCount c₁ = depth) (hd₂ : dotCount c₂ = depth)
    (hp₁ : parentCode c₁ = obj) (hp₂ : parentCode c₂ = obj)
    (ht₁ : 3/10 < s₁) (ht₂ : 3/10 < s₂) :
    alookup obj (boostPass scored depth) =
      some (1/2 + ((similars scored obj depth).length : ℚ) / 10 +
        (similars scored obj depth).foldl max (aget obj scored)) := by
  have hm₁ : (c₁, s₁) ∈ scored.filter
      (fun p => (3/10 : ℚ) < p.2 ∧ obj = parentCode p.1 ∧ dotCount p.1 = depth) := by
    refine List.mem_filter.2 ⟨h₁, ?_⟩
    simpa using ⟨ht₁, hp₁.symm, hd₁⟩
  have hm₂ : (c₂, s₂) ∈ scored.filter
      (fun p => (3/10 : ℚ) < p.2 ∧ obj = parentCode p.1 ∧ dotCount p.1 = depth) := by
    refine List.mem_filter.2 ⟨h₂, ?_⟩
    simpa using ⟨ht₂, hp₂.symm, hd₂⟩
  have hlen : 1 < (similars scored obj depth).length := by
    rw [similars, List.length_map]
    exact two_le_length_of_mem hm₁ hm₂ (by intro hc; exact hne (congrArg Prod.fst hc))
  have hupd : alookup obj (passUpdated scored depth) =
      some (boostValue scored obj depth) := by
    rw [passUpdated]
    exact alookup_passUpdatedGo_hit scored depth obj hlen scored []
      (by intro q hq; simp at hq) (Or.inl ⟨(c₁, s₁), h₁, hd₁, hp₁⟩)
  rw [boostPass, alookup_dictUpdate_of_upd _ _ _ _ hupd, boostValue]

/-- C1 witness: the end-to-end scenario of the claim; siblings `A1.1`
scoring 0.4 and `A1.2` scoring 0.35 under the shared parent `A1` drive
the parent's score to `0.5 + 2/10 + max(0, 0.4, 0.35) = 1.1`. -/
theorem c1_parent_boost_witness :
    (("A1.1", (2/5 : ℚ)) ∈ ([("A1.1", (2/5 : ℚ)), ("A1.2", 7/20)] : List (String × ℚ))) ∧
    (("A1.2", (7/20 : ℚ)) ∈ ([("A1.1", (2/5 : ℚ)), ("A1.2", 7/20)] : List (String × ℚ))) ∧
    (3/10 : ℚ) < 2/5 ∧ (3/10 : ℚ) < 7/20 ∧
    alookup "A1" (boostPass [("A1.1", (2/5 : ℚ)), ("A1.2", 7/20)] 1) = some (11/10) := by
  have hpa : parentCode "A1.1" = "A1" := by decide
  have hpb : parentCode "A1.2" = "A1" := by decide
  have hda : dotCount "A1.1" = 1 := by decide
  have hdb : dotCount "A1.2" = 1 := by decide
  have hea : ("A1.1" : String) ≠ "A1" := by decide
  have heb : ("A1.2" : String) ≠ "A1" := by decide
  have h := c1_parent_boost [("A1.1", (2/5 : ℚ)), ("A1.2", 7/20)] 1 "A1.1" "A1.2" "A1"
    (2/5) (7/20) (by simp) (by simp) (by decide) hda hdb hpa hpb (by norm_num) (by norm_num)
  refine ⟨by simp, by simp, by norm_num, by norm_num, ?_⟩
  rw [h]
  norm_num [similars, List.filter, hpa, hpb, hda, hdb, hea, heb, aget, alookup, max_def]

/-- C8 counterexample: in the ATC system the 0.1 recipients of Phase 1b
are the codes of `ATC.ALL` that are prefixes (ancestors) of the accepted
code, including the accepted code itself — not its siblings.  With codes
A, AB, AC and accepted code AB, the code hands 0.1 to [A, AB], while the
other codes sharing the parent prefix A are [A, AC]: the sibling AC gets
nothing and the accepted code AB itself is weighted. -/
theorem c8_counterexample :
    atcOthers ["A", "AB", "AC"] "AB" = ["A", "AB"] ∧
    specSiblings ["A", "AB", "AC"] "AB" "A" = ["A", "AC"] ∧
    atcOthers ["A", "AB", "AC"] "AB" ≠ specSiblings ["A", "AB", "AC"] "AB" "A" := by
  decide

/-- C8 amended: for an accepted ICD code the 0.1 weight recipients are
exactly the codes of `ICD.ALL` whose identifier starts with the accepted
code's recorded parent code (the parent's whole subtree, including the
accepted code itself), and only when a parent is recorded; for an
accepted ATC code they are exactly the codes of `ATC.ALL` that are
prefixes of the accepted code's identifier (its ancestors, including the
code itself). -/
theorem c8_indirect_recipients (icdAll : List (String × ICDCode)) (atcAll : List String)
    (code c : String) :
    (c ∈ icdOthers icdAll code ↔
      ∃ par, (alookup code icdAll).bind ICDCode.parent = some par ∧
        ∃ e ∈ icdAll.map Prod.snd, e.code = c ∧ startswith c par) ∧
    (c ∈ atcOthers atcAll code ↔ c ∈ atcAll ∧ startswith code c) := by
  constructor
  · rw [icdOthers]
    cases hp : (alookup code icdAll).bind ICDCode.parent with
    | none => simp
    | some par =>
      simp only [List.mem_map, List.mem_filter, Option.some.injEq]
      constructor
      · rintro ⟨e, ⟨he, hs⟩, rfl⟩
        exact ⟨par, rfl, e, he, rfl, by simpa using hs⟩
      · rintro ⟨par', hpar', e, he, rfl, hs⟩
        obtain rfl : par = par' := hpar'
        exact ⟨e, ⟨he, by simpa using hs⟩, rfl⟩
  · rw [atcOthers]
    simp [List.mem_filter]

theorem alookup_filterMap_keep {α : Type} [LinearOrderedField α]
    (b : List (String × α)) (k : String) :
    ∀ (a : List (String × α)) (s : α), alookup k a = some s → 0 < s + aget k b →
      alookup k (a.filterMap (fun p =>
        if 0 < p.2 + aget p.1 b then some (p.1, p.2 + aget p.1 b) else none)) =
        some (s + aget k b) := by
  intro a
  induction a with
  | nil => intro s h; simp [alookup] at h
  | cons p rest ih =>
    intro s h hpos
    obtain ⟨p₁, p₂⟩ := p
    rw [alookup] at h
    by_cases hp : p₁ = k
    · subst hp
      rw [if_pos rfl] at h
      obtain rfl : p₂ = s := by simpa using h
      rw [List.filterMap_cons]
      rw [if_pos hpos]
      rw [alookup, if_pos rfl]
    · rw [if_neg hp] at h
      rw [List.filterMap_cons]
      by_cases hc : (0 : α) < p₂ + aget p₁ b
      · rw [if_pos hc, alookup, if_neg hp]
        exact ih s h hpos
      · rw [if_neg hc]
        exact ih s h hpos

theorem alookup_filterMap_none {α : Type} [LinearOrderedField α]
    (b : List (String × α)) (k : String) :
    ∀ a : List (String × α), alookup k a = none →
      alookup k (a.filterMap (fun p =>
        if 0 < p.2 + aget p.1 b then some (p.1, p.2 + aget p.1 b) else none)) = none := by
  intro a
  induction a with
  | nil => intro _; rfl
  | cons p rest ih =>
    intro h
    rw [alookup] at h
    by_cases hp : p.1 = k
    · rw [if_pos hp] at h; exact absurd h (by simp)
    · rw [if_neg hp] at h
      rw [List.filterMap_cons]
      by_cases hc : (0 : α) < p.2 + aget p.1 b
      · rw [if_pos hc, alookup, if_neg hp]
        exact ih h
      · rw [if_neg hc]
        exact ih h

theorem alookup_filter_bpart_keep {α : Type} [LinearOrderedField α]
    (a : List (String × α)) (k : String) :
    ∀ (b : List (String × α)) (t : α), alookup k b = some t → alookup k a = none →
      0 < t →
      alookup k (b.filter (fun q => (alookup q.1 a).isNone ∧ 0 < q.2)) = some t := by
  intro b
  induction b with
  | nil => intro t h; simp [alookup] at h
  | cons q rest ih =>
    intro t h ha ht
    obtain ⟨q₁, q₂⟩ := q
    rw [alookup] at h
    by_cases hq : q₁ = k
    · subst hq
      rw [if_pos rfl] at h
      obtain rfl : q₂ = t := by simpa using h
      rw [List.filter_cons, if_pos (by simp [ha, ht])]
      rw [alookup, if_pos rfl]
    · rw [if_neg hq] at h
      rw [List.filter_cons]
      by_cases hc : ((alookup q₁ a).isNone ∧ 0 < q₂)
      · rw [if_pos (by simpa using hc), alookup, if_neg hq]
        exact ih t h ha ht
      · rw [if_neg (by simpa using hc)]
        exact ih t h ha ht

/-- C9 amended: the ensemble combination of `task_6b` rescales
`ranking_a` by the weight, sums scores per chapter across the two
rankings, and a chapter present in only one ranking keeps exactly its
single (rescaled, for `ranking_a`) score — provided the resulting score
is positive, because Python's Counter addition silently drops entries
whose combined value is not positive. -/
theorem c9_combine (a b : List (String × ℚ)) (w : ℚ) (ch : String) (s t : ℚ) :
    (alookup ch a = some s → alookup ch b = some t → 0 < s * w + t →
      alookup ch (combine a b w) = some (s * w + t)) ∧
    (alookup ch a = some s → alookup ch b = none → 0 < s * w →
      alookup ch (combine a b w) = some (s * w)) ∧
    (alookup ch a = none → alookup ch b = some t → 0 < t →
      alookup ch (combine a b w) = some t) := by
  refine ⟨?_, ?_, ?_⟩
  · intro ha hb hpos
    have hA : alookup ch (a.map (fun p => (p.1, p.2 * w))) = some (s * w) := by
      rw [alookup_map_value (fun x => x * w) ch a, ha]
      rfl
    have hbt : aget ch b = t := by rw [aget, hb]; rfl
    rw [combine, pyCounterAdd, alookup_append,
      alookup_filterMap_keep b ch _ (s * w) hA (by rwa [hbt])]
    simp [hbt]
  · intro ha hb hpos
    have hA : alookup ch (a.map (fun p => (p.1, p.2 * w))) = some (s * w) := by
      rw [alookup_map_value (fun x => x * w) ch a, ha]
      rfl
    have hbt : aget ch b = 0 := by rw [aget, hb]; rfl
    rw [combine, pyCounterAdd, alookup_append,
      alookup_filterMap_keep b ch _ (s * w) hA (by rw [hbt]; simpa using hpos)]
    simp [hbt]
  · intro ha hb hpos
    have hA : alookup ch (a.map (fun p => (p.1, p.2 * w))) = none := by
      rw [alookup_map_value (fun x => x * w) ch a, ha]
      rfl
    rw [combine, pyCounterAdd, alookup_append, alookup_filterMap_none b ch _ hA]
    simpa using alookup_filter_bpart_keep _ ch b t hb hA hpos

/-- C9 witness: the claim's worked example — combining `{X: 1.0}` with
`{X: 2.0}` at weight 3 yields `{X: 5.0}`. -/
theorem c9_combine_witness :
    alookup "X" [("X", (1 : ℚ))] = some 1 ∧ alookup "X" [("X", (2 : ℚ))] = some 2 ∧
    alookup "X" (combine [("X", (1 : ℚ))] [("X", (2 : ℚ))] 3) = some 5 := by
  have ha : alookup "X" [("X", (1 : ℚ))] = some 1 := by norm_num [alookup]
  have hb : alookup "X" [("X", (2 : ℚ))] = some 2 := by norm_num [alookup]
  have h := (c9_combine [("X", (1 : ℚ))] [("X", (2 : ℚ))] 3 "X" 1 2).1 ha hb (by norm_num)
  refine ⟨ha, hb, ?_⟩
  rw [h]
  norm_num

/-- C9 counterexample: a chapter present in only one ranking with score
0 (reachable, since a tiny cosine similarity is formatted as '0.00' and
re-parsed as 0.0) is dropped by the Counter addition of `task_6b`
instead of keeping its single rescaled score. -/
theorem c9_counterexample :
    alookup "X" [("X", (0 : ℚ))] = some 0 ∧
    alookup "X" (combine [("X", (0 : ℚ))] [] 200) = none := by
  norm_num [alookup, combine, pyCounterAdd, aget, List.filterMap_cons]


/-- C4 counterexample: a term with document frequency zero is not
skipped with a warning — `calc_idf` calls `_idf`, which divides `N / n`
with `n = 0`, a ZeroDivisionError that aborts the whole vectorization;
the remaining terms are not vectorized.  Here term "b" has document
frequency 0 while term "a" is fine, and the result is a failure rather
than a vector for the remaining term. -/
theorem c4_counterexample :
    createVector pyTfLogNorm pyIdf 10 (fun t => if t = "b" then 0 else 3) (fun _ => 0)
      [("a", 2), ("b", 4)] = none := by
  simp [createVector, optTraverse, calcIdf, pyIdf]

/-- C4 amended: `create_vectors` performs no skipping at all.  A zero
document frequency for any term of the document makes the vectorization
fail with a division-by-zero error (see the counterexample); when every
term of the document has positive combined document frequency (and the
corpus is non-empty), vectorization succeeds and produces one weight per
raw term. -/
theorem c4_no_skip (N : ℕ) (tdf cdf : String → ℕ) (raw : List (String × ℕ))
    (hN : 0 < N) (hdf : ∀ p ∈ raw, 0 < tdf p.1 + cdf p.1) :
    ∃ v, createVector pyTfLogNorm pyIdf N tdf cdf raw = some v ∧
      v.length = raw.length := by
  induction raw with
  | nil => exact ⟨[], rfl, rfl⟩
  | cons p rest ih =>
    obtain ⟨v, hv, hl⟩ := ih (fun q hq => hdf q (List.mem_cons_of_mem _ hq))
    have hn : tdf p.1 + cdf p.1 ≠ 0 := (hdf p (List.mem_cons_self _ _)).ne'
    refine ⟨(p.1, pyTfLogNorm p.2 * Real.log ((N : ℝ) / ((tdf p.1 + cdf p.1 : ℕ) : ℝ))) :: v,
      ?_, by simp [hl]⟩
    rw [createVector, optTraverse]
    rw [show calcIdf pyIdf N tdf cdf p.1 =
        some (Real.log ((N : ℝ) / ((tdf p.1 + cdf p.1 : ℕ) : ℝ))) by
      rw [calcIdf, pyIdf, if_neg hn, if_neg hN.ne']]
    rw [createVector] at hv
    simp [hv]

/-- C4 witness: a two-document corpus where the single term has document
frequency one vectorizes successfully with one weight. -/
theorem c4_no_skip_witness :
    (0 < 2) ∧ (∀ p ∈ [("a", (1 : ℕ))], 0 < (fun _ : String => 1) p.1 + (fun _ : String => 0) p.1) ∧
    ∃ v, createVector pyTfLogNorm pyIdf 2 (fun _ => 1) (fun _ => 0) [("a", 1)] = some v ∧
      v.length = [("a", (1 : ℕ))].length := by
  exact ⟨by norm_num, by simp,
    c4_no_skip 2 (fun _ => 1) (fun _ => 0) [("a", 1)] (by norm_num) (by simp)⟩

theorem alookup_append_some {β : Type} {k : String} {v : β} {l₁ l₂ : List (String × β)}
    (h : alookup k l₁ = some v) : alookup k (l₁ ++ l₂) = some v := by
  rw [alookup_append, h]
  rfl

theorem alookup_append_right {β : Type} {k : String} {l₁ l₂ : List (String × β)}
    (h : alookup k l₁ = none) : alookup k (l₁ ++ l₂) = alookup k l₂ := by
  rw [alookup_append, h]
  rfl

theorem round2_zero : round2 0 = 0 := by
  simp [round2]

theorem alookup_filterMap_drop {α : Type} [LinearOrderedField α]
    (b : List (String × α)) (k : String) :
    ∀ (a : List (String × α)) (s : α), (a.map Prod.fst).Nodup → alookup k a = some s →
      ¬(0 < s + aget k b) →
      alookup k (a.filterMap (fun p =>
        if 0 < p.2 + aget p.1 b then some (p.1, p.2 + aget p.1 b) else none)) = none := by
  intro a
  induction a with
  | nil => intro s _ h; simp [alookup] at h
  | cons p rest ih =>
    intro s hnd h hneg
    obtain ⟨p₁, p₂⟩ := p
    simp only [List.map_cons, List.nodup_cons] at hnd
    rw [alookup] at h
    by_cases hp : p₁ = k
    · subst hp
      rw [if_pos rfl] at h
      obtain rfl : p₂ = s := by simpa using h
      rw [List.filterMap_cons, if_neg hneg]
      exact alookup_filterMap_none b p₁ rest
        (alookup_eq_none_of_not_mem hnd.1)
    · rw [if_neg hp] at h
      rw [List.filterMap_cons]
      by_cases hc : (0 : α) < p₂ + aget p₁ b
      · rw [if_pos hc, alookup, if_neg hp]
        exact ih s hnd.2 h hneg
      · rw [if_neg hc]
        exact ih s hnd.2 h hneg

/-- C10: the ensemble combiner of `task_6b` never sees the exact
similarity and evidence scores: both rankings pass through the
two-decimal format of `task_3` and `task_6a` and are re-parsed, so every
chapter of the combined result carries exactly
`round2(similarity) * 200 + round2(evidence)` (a missing entry counting
as 0), not the exact weighted sum of the underlying values. -/
theorem c10_rounded_ensemble (sim evid : List (String × ℝ))
    (hsim : (sim.map Prod.fst).Nodup) (hevid : (evid.map Prod.fst).Nodup)
    (ch : String) (v : ℝ)
    (h : alookup ch (task6bOverall (fmtRanking sim) (fmtRanking evid)) = some v) :
    v = round2 (aget ch sim) * 200 + round2 (aget ch evid) := by
  have hA : (fmtRanking sim).map (fun p => (p.2, p.1 * 200)) =
      sim.map (fun p => (p.1, round2 p.2 * 200)) := by
    rw [fmtRanking, List.map_map]
    rfl
  have hB : (fmtRanking evid).map (fun p => (p.2, p.1)) =
      evid.map (fun p => (p.1, round2 p.2)) := by
    rw [fmtRanking, List.map_map]
    rfl
  rw [task6bOverall, hA, hB, pyCounterAdd] at h
  have hBlookup : alookup ch (evid.map (fun p => (p.1, round2 p.2))) =
      (alookup ch evid).map round2 :=
    alookup_map_value round2 ch evid
  have hBaget : aget ch (evid.map (fun p => (p.1, round2 p.2))) = round2 (aget ch evid) := by
    rw [aget, hBlookup]
    cases he : alookup ch evid with
    | none => simp [aget, he, round2_zero]
    | some e => simp [aget, he]
  have hAlookup : alookup ch (sim.map (fun p => (p.1, round2 p.2 * 200))) =
      (alookup ch sim).map (fun x => round2 x * 200) :=
    alookup_map_value (fun x => round2 x * 200) ch sim
  cases hs : alookup ch sim with
  | some s =>
    have hA' : alookup ch (sim.map (fun p => (p.1, round2 p.2 * 200))) =
        some (round2 s * 200) := by rw [hAlookup, hs]; rfl
    have hsget : aget ch sim = s := by rw [aget, hs]; rfl
    by_cases hpos : 0 < round2 s * 200 +
        aget ch (evid.map (fun p => (p.1, round2 p.2)))
    · have hkeep := alookup_filterMap_keep
        (evid.map (fun p => (p.1, round2 p.2))) ch
        (sim.map (fun p => (p.1, round2 p.2 * 200))) _ hA' hpos
      have hv := (alookup_append_some hkeep).symm.trans h
      obtain rfl : round2 s * 200 + aget ch (evid.map (fun p => (p.1, round2 p.2))) = v := by
        simpa using hv
      rw [hsget, hBaget]
    · have hnd' : ((sim.map (fun p => (p.1, round2 p.2 * 200))).map Prod.fst).Nodup := by
        rw [List.map_map]
        exact hsim
      rw [alookup_append_right (alookup_filterMap_drop _ ch _ _ hnd' hA' hpos)] at h
      have hmem := mem_of_alookup h
      have := (List.mem_filter.1 hmem).2
      simp only [decide_eq_true_eq] at this
      exact absurd this.1 (by rw [hA']; simp)
  | none =>
    have hA' : alookup ch (sim.map (fun p => (p.1, round2 p.2 * 200))) = none := by
      rw [hAlookup, hs]; rfl
    rw [alookup_append_right (alookup_filterMap_none _ ch _ hA')] at h
    have hmem := mem_of_alookup h
    have hpred := (List.mem_filter.1 hmem).2
    have hmem' := (List.mem_filter.1 hmem).1
    obtain ⟨q, hq, hqe⟩ := List.mem_map.1 hmem'
    have hq1 : q.1 = ch := congrArg Prod.fst hqe
    have hq2 : round2 q.2 = v := congrArg Prod.snd hqe
    have hqev : alookup ch evid = some q.2 :=
      alookup_of_mem_nodup (by rw [← hq1]; exact hq) hevid
    have hsget : aget ch sim = 0 := by rw [aget, hs]; rfl
    have hegget : aget ch evid = q.2 := by rw [aget, hqev]; rfl
    rw [hsget, hegget, round2_zero, hq2.symm]
    ring

/-- C10 witness: a similarity of 1/300 is formatted as '0.00', so the
chapter's combined score is 0 * 200 + 2 = 2 — the rounded formula of the
claim — while the exact weighted sum would be 1/300 * 200 + 2 = 8/3. -/
theorem c10_rounded_ensemble_witness :
    (([("X", (1/300 : ℝ))].map Prod.fst).Nodup) ∧
    (([("X", (2 : ℝ))].map Prod.fst).Nodup) ∧
    alookup "X" (task6bOverall (fmtRanking [("X", (1/300 : ℝ))])
      (fmtRanking [("X", (2 : ℝ))])) = some 2 ∧
    (2 : ℝ) = round2 (aget "X" [("X", (1/300 : ℝ))]) * 200 +
      round2 (aget "X" [("X", (2 : ℝ))]) ∧
    round2 (aget "X" [("X", (1/300 : ℝ))]) * 200 + round2 (aget "X" [("X", (2 : ℝ))]) ≠
      aget "X" [("X", (1/300 : ℝ))] * 200 + aget "X" [("X", (2 : ℝ))] := by
  have r13 : round2 ((300 : ℝ)⁻¹) = 0 := by rw [round2]; norm_num [round_eq]
  have r2 : round2 (2 : ℝ) = 2 := by rw [round2]; norm_num [round_eq]
  have heval : alookup "X" (task6bOverall (fmtRanking [("X", (1/300 : ℝ))])
      (fmtRanking [("X", (2 : ℝ))])) = some 2 := by
    simp [task6bOverall, fmtRanking, pyCounterAdd, aget, alookup, r13, r2,
      List.filterMap_cons]
  have haget1 : aget "X" [("X", (1/300 : ℝ))] = 1/300 := by norm_num [aget, alookup]
  have haget2 : aget "X" [("X", (2 : ℝ))] = 2 := by norm_num [aget, alookup]
  refine ⟨by simp, by simp, heval,
    c10_rounded_ensemble [("X", (1/300 : ℝ))] [("X", (2 : ℝ))] (by simp) (by simp) "X" 2 heval,
    ?_⟩
  rw [haget1, haget2, r2]
  rw [show ((1:ℝ)/300) = (300 : ℝ)⁻¹ by norm_num, r13]
  norm_num

theorem filterMap_eq_map_of {γ δ : Type} (f : γ → Option δ) (g : γ → δ) :
    ∀ l : List γ, (∀ x ∈ l, f x = some (g x)) → l.filterMap f = l.map g := by
  intro l
  induction l with
  | nil => intro _; rfl
  | cons x xs ih =>
    intro h
    rw [List.filterMap_cons, h x (List.mem_cons_self _ _), List.map_cons,
      ih (fun y hy => h y (List.mem_cons_of_mem _ hy))]

theorem matchesList_eq_pairs (chapterV caseV : List (String × ℝ)) :
    matchesList chapterV caseV = (pairsOf chapterV caseV).map (fun q => q.1 * q.2) := by
  rw [matchesList, pairsOf]
  induction caseV with
  | nil => rfl
  | cons p rest ih =>
    rw [List.filterMap_cons, List.filterMap_cons]
    cases h : alookup p.1 chapterV with
    | none => simpa [h] using ih
    | some w => simpa [h] using ih

theorem sqrt_mul_add_le (a b c d : ℝ) (ha : 0 ≤ a) (hb : 0 ≤ b) (hc : 0 ≤ c) (hd : 0 ≤ d) :
    Real.sqrt a * Real.sqrt b + Real.sqrt c * Real.sqrt d ≤
      Real.sqrt (a + c) * Real.sqrt (b + d) := by
  rw [← Real.sqrt_mul ha, ← Real.sqrt_mul hc, ← Real.sqrt_mul (add_nonneg ha hc)]
  have h₅ : Real.sqrt (a * b) * Real.sqrt (c * d) =
      Real.sqrt (a * d) * Real.sqrt (c * b) := by
    rw [← Real.sqrt_mul (mul_nonneg ha hb), ← Real.sqrt_mul (mul_nonneg ha hd)]
    ring_nf
  have h₁ := Real.sq_sqrt (mul_nonneg ha hb)
  have h₂ := Real.sq_sqrt (mul_nonneg hc hd)
  have h₃ := Real.sq_sqrt (mul_nonneg ha hd)
  have h₄ := Real.sq_sqrt (mul_nonneg hc hb)
  have h₆ := sq_nonneg (Real.sqrt (a * d) - Real.sqrt (c * b))
  have hsum : 0 ≤ Real.sqrt (a * b) + Real.sqrt (c * d) :=
    add_nonneg (Real.sqrt_nonneg _) (Real.sqrt_nonneg _)
  have hsq : (Real.sqrt (a * b) + Real.sqrt (c * d)) ^ 2 ≤ (a + c) * (b + d) := by
    nlinarith [h₁, h₂, h₃, h₄, h₅, h₆]
  calc Real.sqrt (a * b) + Real.sqrt (c * d)
      = Real.sqrt ((Real.sqrt (a * b) + Real.sqrt (c * d)) ^ 2) := (Real.sqrt_sq hsum).symm
    _ ≤ Real.sqrt ((a + c) * (b + d)) := Real.sqrt_le_sqrt hsq

theorem list_inner_le (l : List (ℝ × ℝ)) :
    (l.map (fun q => q.1 * q.2)).sum ≤
      Real.sqrt ((l.map (fun q => q.1 ^ 2)).sum) *
        Real.sqrt ((l.map (fun q => q.2 ^ 2)).sum) := by
  induction l with
  | nil => simp
  | cons q l ih =>
    have hA : 0 ≤ (l.map (fun q => q.1 ^ 2)).sum :=
      List.sum_nonneg (by intro x hx; obtain ⟨y, _, rfl⟩ := List.mem_map.1 hx; positivity)
    have hB : 0 ≤ (l.map (fun q => q.2 ^ 2)).sum :=
      List.sum_nonneg (by intro x hx; obtain ⟨y, _, rfl⟩ := List.mem_map.1 hx; positivity)
    simp only [List.map_cons, List.sum_cons]
    have step : q.1 * q.2 ≤ Real.sqrt (q.1 ^ 2) * Real.sqrt (q.2 ^ 2) := by
      rw [Real.sqrt_sq_eq_abs, Real.sqrt_sq_eq_abs, ← abs_mul]
      exact le_abs_self _
    calc q.1 * q.2 + (l.map (fun q => q.1 * q.2)).sum
        ≤ Real.sqrt (q.1 ^ 2) * Real.sqrt (q.2 ^ 2) +
          Real.sqrt ((l.map (fun q => q.1 ^ 2)).sum) *
            Real.sqrt ((l.map (fun q => q.2 ^ 2)).sum) := add_le_add step ih
      _ ≤ Real.sqrt (q.1 ^ 2 + (l.map (fun q => q.1 ^ 2)).sum) *
            Real.sqrt (q.2 ^ 2 + (l.map (fun q => q.2 ^ 2)).sum) :=
          sqrt_mul_add_le _ _ _ _ (sq_nonneg _) (sq_nonneg _) hA hB

theorem sqMagOn_cons (e : String × ℝ) (rest : List (String × ℝ)) (keys : List String) :
    sqMagOn (e :: rest) keys =
      (if e.1 ∈ keys then e.2 ^ 2 else 0) + sqMagOn rest keys := by
  simp only [sqMagOn, List.filter_cons]
  by_cases h : e.1 ∈ keys
  · rw [if_pos (by simpa using h), if_pos h]
    simp
  · rw [if_neg (by simpa using h), if_neg h]
    simp

theorem sqMagnitude_cons (e : String × ℝ) (rest : List (String × ℝ)) :
    sqMagnitude (e :: rest) = e.2 ^ 2 + sqMagnitude rest := by
  simp [sqMagnitude]

theorem sqMagOn_mono_keys (v : List (String × ℝ)) (k : String) (keys : List String) :
    sqMagOn v keys ≤ sqMagOn v (k :: keys) := by
  induction v with
  | nil => simp [sqMagOn]
  | cons e rest ih =>
    rw [sqMagOn_cons, sqMagOn_cons]
    by_cases h1 : e.1 ∈ keys
    · rw [if_pos h1, if_pos (List.mem_cons_of_mem _ h1)]
      linarith
    · rw [if_neg h1]
      by_cases h2 : e.1 ∈ k :: keys
      · rw [if_pos h2]
        have := sq_nonneg e.2
        linarith
      · rw [if_neg h2]
        linarith

theorem sq_add_sqMagOn_le (k : String) (w : ℝ) (keys : List String) (hk : k ∉ keys) :
    ∀ v : List (String × ℝ), alookup k v = some w →
      w ^ 2 + sqMagOn v keys ≤ sqMagOn v (k :: keys) := by
  intro v
  induction v with
  | nil => intro h; simp [alookup] at h
  | cons e rest ih =>
    intro h
    rw [alookup] at h
    rw [sqMagOn_cons, sqMagOn_cons]
    by_cases he : e.1 = k
    · rw [if_pos he] at h
      obtain rfl : e.2 = w := by simpa using h
      rw [if_neg (by rw [he]; exact hk), if_pos (by rw [he]; exact List.mem_cons_self _ _)]
      have := sqMagOn_mono_keys rest k keys
      linarith
    · rw [if_neg he] at h
      have := ih h
      by_cases hm : e.1 ∈ keys
      · rw [if_pos hm, if_pos (List.mem_cons_of_mem _ hm)]
        linarith
      · have hm' : e.1 ∉ k :: keys := by
          intro hc
          rcases List.mem_cons.1 hc with hck | hck
          · exact he hck
          · exact hm hck
        rw [if_neg hm, if_neg hm']
        linarith

theorem pairsOf_cons_none (chapterV : List (String × ℝ)) (p : String × ℝ)
    (rest : List (String × ℝ)) (h : alookup p.1 chapterV = none) :
    pairsOf chapterV (p :: rest) = pairsOf chapterV rest := by
  rw [pairsOf, pairsOf, List.filterMap_cons, h]
  rfl

theorem pairsOf_cons_some (chapterV : List (String × ℝ)) (p : String × ℝ)
    (rest : List (String × ℝ)) (w : ℝ) (h : alookup p.1 chapterV = some w) :
    pairsOf chapterV (p :: rest) = (w, p.2) :: pairsOf chapterV rest := by
  rw [pairsOf, pairsOf, List.filterMap_cons, h]
  rfl

theorem pairs_fst_le : ∀ (caseV : List (String × ℝ)), (caseV.map Prod.fst).Nodup →
    ∀ chapterV : List (String × ℝ),
      ((pairsOf chapterV caseV).map (fun q => q.1 ^ 2)).sum ≤
        sqMagOn chapterV (caseV.map Prod.fst) := by
  intro caseV
  induction caseV with
  | nil => intro _ chapterV; simp [pairsOf, sqMagOn]
  | cons p rest ih =>
    intro hnd chapterV
    simp only [List.map_cons, List.nodup_cons] at hnd ⊢
    cases h : alookup p.1 chapterV with
    | none =>
      rw [pairsOf_cons_none _ _ _ h]
      exact le_trans (ih hnd.2 chapterV) (sqMagOn_mono_keys chapterV p.1 (rest.map Prod.fst))
    | some w =>
      rw [pairsOf_cons_some _ _ _ _ h]
      simp only [List.map_cons, List.sum_cons]
      have h1 := ih hnd.2 chapterV
      have h2 := sq_add_sqMagOn_le p.1 w (rest.map Prod.fst) hnd.1 chapterV h
      linarith

theorem sqMagOn_le_sqMagnitude (v : List (String × ℝ)) (keys : List String) :
    sqMagOn v keys ≤ sqMagnitude v := by
  induction v with
  | nil => simp [sqMagOn, sqMagnitude]
  | cons e rest ih =>
    rw [sqMagOn_cons, sqMagnitude_cons]
    by_cases h : e.1 ∈ keys
    · rw [if_pos h]; linarith
    · rw [if_neg h]
      have := sq_nonneg e.2
      linarith

theorem pairs_snd_le (chapterV : List (String × ℝ)) :
    ∀ caseV : List (String × ℝ),
      ((pairsOf chapterV caseV).map (fun q => q.2 ^ 2)).sum ≤ sqMagnitude caseV := by
  intro caseV
  induction caseV with
  | nil => simp [pairsOf, sqMagnitude]
  | cons p rest ih =>
    rw [sqMagnitude_cons]
    cases h : alookup p.1 chapterV with
    | none =>
      rw [pairsOf_cons_none _ _ _ h]
      have := sq_nonneg p.2
      linarith
    | some w =>
      rw [pairsOf_cons_some _ _ _ _ h]
      simp only [List.map_cons, List.sum_cons]
      linarith

theorem matchesList_cons_none (chapterV : List (String × ℝ)) (p : String × ℝ)
    (rest : List (String × ℝ)) (h : alookup p.1 chapterV = none) :
    matchesList chapterV (p :: rest) = matchesList chapterV rest := by
  rw [matchesList, matchesList, List.filterMap_cons]
  simp [h]

theorem matchesList_cons_some (chapterV : List (String × ℝ)) (p : String × ℝ)
    (rest : List (String × ℝ)) (w : ℝ) (h : alookup p.1 chapterV = some w) :
    matchesList chapterV (p :: rest) = w * p.2 :: matchesList chapterV rest := by
  rw [matchesList, matchesList, List.filterMap_cons]
  simp [h]

theorem matches_sum_nonneg (chapterV caseV : List (String × ℝ))
    (ha : ∀ p ∈ chapterV, 0 ≤ p.2) (hb : ∀ p ∈ caseV, 0 ≤ p.2) :
    0 ≤ (matchesList chapterV caseV).sum := by
  induction caseV with
  | nil => simp [matchesList]
  | cons p rest ih =>
    cases h : alookup p.1 chapterV with
    | none =>
      rw [matchesList_cons_none _ _ _ h]
      exact ih (fun q hq => hb q (List.mem_cons_of_mem _ hq))
    | some w =>
      rw [matchesList_cons_some _ _ _ _ h, List.sum_cons]
      have hw : 0 ≤ w := ha (p.1, w) (mem_of_alookup h)
      have hp : 0 ≤ p.2 := hb p (List.mem_cons_self _ _)
      have ht := ih (fun q hq => hb q (List.mem_cons_of_mem _ hq))
      have := mul_nonneg hw hp
      linarith

theorem exists_lookup_of_matches_ne_nil (chapterV : List (String × ℝ)) :
    ∀ caseV : List (String × ℝ), matchesList chapterV caseV ≠ [] →
      ∃ p ∈ caseV, ∃ w, alookup p.1 chapterV = some w := by
  intro caseV
  induction caseV with
  | nil => intro h; exact absurd rfl h
  | cons p rest ih =>
    intro h
    cases hl : alookup p.1 chapterV with
    | some w => exact ⟨p, List.mem_cons_self _ _, w, hl⟩
    | none =>
      have h' : matchesList chapterV rest ≠ [] := by
        rw [matchesList_cons_none _ _ _ hl] at h
        exact h
      obtain ⟨q, hq, w, hw⟩ := ih h'
      exact ⟨q, List.mem_cons_of_mem _ hq, w, hw⟩

theorem sqMagnitude_pos_of_mem (v : List (String × ℝ)) (p : String × ℝ)
    (hp : p ∈ v) (hne : p.2 ≠ 0) : 0 < sqMagnitude v := by
  have h1 : 0 < p.2 ^ 2 := by positivity
  have h2 : p.2 ^ 2 ≤ sqMagnitude v := by
    rw [sqMagnitude]
    refine List.single_le_sum ?_ _ (List.mem_map.2 ⟨p, hp, rfl⟩)
    intro x hx
    obtain ⟨y, _, rfl⟩ := List.mem_map.1 hx
    positivity
  linarith

/-- C5 amended: for two term vectors with non-negative weights, distinct
case terms, a non-empty shared-term list and — the amendment — positive
squared magnitudes on both sides, `task_3` computes a similarity score
in [0, 1]; and for any vector with a non-zero weight the self-similarity
is exactly 1.  (With a zero magnitude the code divides by zero instead,
see the counterexample.) -/
theorem c5_cosine_bounds (a b : List (String × ℝ)) :
    ((∀ p ∈ a, 0 ≤ p.2) → (∀ p ∈ b, 0 ≤ p.2) → (b.map Prod.fst).Nodup →
      matchesList a b ≠ [] → 0 < sqMagnitude a → 0 < sqMagnitude b →
      ∃ s, scorePair a b = PairScore.scored s ∧ 0 ≤ s ∧ s ≤ 1) ∧
    ((a.map Prod.fst).Nodup → (∃ p ∈ a, p.2 ≠ 0) →
      scorePair a a = PairScore.scored 1) := by
  constructor
  · intro ha hb hnd hne hA hB
    have hmag : 0 < Real.sqrt (sqMagnitude a) * Real.sqrt (sqMagnitude b) :=
      mul_pos (Real.sqrt_pos.2 hA) (Real.sqrt_pos.2 hB)
    refine ⟨(matchesList a b).sum /
      (Real.sqrt (sqMagnitude a) * Real.sqrt (sqMagnitude b)), ?_, ?_, ?_⟩
    · rw [scorePair, if_neg hne, if_neg hmag.ne']
    · exact div_nonneg (matches_sum_nonneg a b ha hb) hmag.le
    · rw [div_le_one hmag]
      calc (matchesList a b).sum
          = ((pairsOf a b).map (fun q => q.1 * q.2)).sum := by rw [matchesList_eq_pairs]
        _ ≤ Real.sqrt (((pairsOf a b).map (fun q => q.1 ^ 2)).sum) *
              Real.sqrt (((pairsOf a b).map (fun q => q.2 ^ 2)).sum) := list_inner_le _
        _ ≤ Real.sqrt (sqMagnitude a) * Real.sqrt (sqMagnitude b) := by
            apply mul_le_mul
            · exact Real.sqrt_le_sqrt
                (le_trans (pairs_fst_le b hnd a) (sqMagOn_le_sqMagnitude a _))
            · exact Real.sqrt_le_sqrt (pairs_snd_le a b)
            · exact Real.sqrt_nonneg _
            · exact Real.sqrt_nonneg _
  · rintro hnd ⟨p, hp, hpne⟩
    have hmm : matchesList a a = a.map (fun q => q.2 * q.2) := by
      rw [matchesList]
      apply filterMap_eq_map_of
      intro q hq
      rw [alookup_of_mem_nodup (show (q.1, q.2) ∈ a by simpa using hq) hnd]
      rfl
    have hfun : (fun q : String × ℝ => q.2 * q.2) = (fun q : String × ℝ => q.2 ^ 2) := by
      funext q
      ring
    have hsum : (matchesList a a).sum = sqMagnitude a := by
      rw [hmm, hfun, sqMagnitude]
    have hApos : 0 < sqMagnitude a := sqMagnitude_pos_of_mem a p hp hpne
    have hne2 : matchesList a a ≠ [] := by
      rw [hmm]
      intro hcontra
      exact List.ne_nil_of_mem hp (by simpa using hcontra)
    have hmag : Real.sqrt (sqMagnitude a) * Real.sqrt (sqMagnitude a) = sqMagnitude a :=
      Real.mul_self_sqrt hApos.le
    rw [scorePair, if_neg hne2, if_neg (by rw [hmag]; exact hApos.ne')]
    rw [hsum, hmag, div_self hApos.ne']

/-- C5 counterexample: two vectors with non-negative weights and a
shared term, but with a zero weight making the case vector's magnitude
zero — the claim promises a score in [0, 1], the code instead hits a
ZeroDivisionError (the `if matches` guard does not prevent a zero-norm
division).  A zero weight is reachable: `idf = log(N/n) = 0` whenever a
term occurs in every document. -/
theorem c5_counterexample :
    scorePair [("t", (1 : ℝ))] [("t", (0 : ℝ))] = PairScore.divisionError := by
  rw [scorePair]
  rw [if_neg (by simp [matchesList, alookup, List.filterMap_cons])]
  rw [if_pos (by norm_num [sqMagnitude])]

/-- C5 witness: the amended bounds at the vectors {t: 2} and {t: 1}. -/
theorem c5_cosine_bounds_witness :
    (∀ p ∈ [("t", (2 : ℝ))], 0 ≤ p.2) ∧ (∀ p ∈ [("t", (1 : ℝ))], 0 ≤ p.2) ∧
    matchesList [("t", (2 : ℝ))] [("t", (1 : ℝ))] ≠ [] ∧
    (0 : ℝ) < sqMagnitude [("t", (2 : ℝ))] ∧ (0 : ℝ) < sqMagnitude [("t", (1 : ℝ))] ∧
    (∃ s, scorePair [("t", (2 : ℝ))] [("t", (1 : ℝ))] = PairScore.scored s ∧
      0 ≤ s ∧ s ≤ 1) ∧
    scorePair [("t", (2 : ℝ))] [("t", (2 : ℝ))] = PairScore.scored 1 := by
  refine ⟨by norm_num, by norm_num,
    by simp [matchesList, alookup, List.filterMap_cons],
    by norm_num [sqMagnitude], by norm_num [sqMagnitude], ?_, ?_⟩
  · exact (c5_cosine_bounds [("t", (2 : ℝ))] [("t", (1 : ℝ))]).1
      (by norm_num) (by norm_num) (by simp)
      (by simp [matchesList, alookup, List.filterMap_cons])
      (by norm_num [sqMagnitude]) (by norm_num [sqMagnitude])
  · exact (c5_cosine_bounds [("t", (2 : ℝ))] [("t", (2 : ℝ))]).2
      (by simp) ⟨("t", (2 : ℝ)), by simp, by norm_num⟩

theorem task3Results_cons (ch : String × List (String × ℝ))
    (chapters : List (String × List (String × ℝ))) (caseV : List (String × ℝ)) :
    task3Results (ch :: chapters) caseV = (task3Results chapters caseV).bind (fun rest =>
      match scorePair ch.2 caseV with
      | PairScore.noMatch => some rest
      | PairScore.divisionError => none
      | PairScore.scored s => some ((ch.1, s) :: rest)) := by
  rw [task3Results, task3Results, List.foldr_cons]

theorem task3Results_mem (caseV : List (String × ℝ)) :
    ∀ (chapters : List (String × List (String × ℝ))) (res : List (String × ℝ)),
      task3Results chapters caseV = some res →
      ∀ q ∈ res, ∃ v, (q.1, v) ∈ chapters ∧ scorePair v caseV = PairScore.scored q.2 := by
  intro chapters
  induction chapters with
  | nil =>
    intro res h q hq
    obtain rfl : ([] : List (String × ℝ)) = res := by simpa [task3Results] using h
    simp at hq
  | cons ch rest ih =>
    intro res h q hq
    rw [task3Results_cons] at h
    cases hr : task3Results rest caseV with
    | none => rw [hr] at h; simp at h
    | some r =>
      rw [hr] at h
      have h' : (match scorePair ch.2 caseV with
        | PairScore.noMatch => some r
        | PairScore.divisionError => none
        | PairScore.scored s => some ((ch.1, s) :: r)) = some res := h
      cases hsp : scorePair ch.2 caseV with
      | noMatch =>
        rw [hsp] at h'
        obtain rfl : r = res := by simpa using h'
        obtain ⟨v, hv, hs⟩ := ih r hr q hq
        exact ⟨v, List.mem_cons_of_mem _ hv, hs⟩
      | divisionError => rw [hsp] at h'; simp at h'
      | scored s =>
        rw [hsp] at h'
        obtain rfl : (ch.1, s) :: r = res := by simpa using h'
        rcases List.mem_cons.1 hq with rfl | hq'
        · exact ⟨ch.2, by simp, by rw [hsp]⟩
        · obtain ⟨v, hv, hs⟩ := ih r hr q hq'
          exact ⟨v, List.mem_cons_of_mem _ hv, hs⟩

theorem task3Results_total (caseV : List (String × ℝ)) (hcase : ∀ q ∈ caseV, 0 < q.2) :
    ∀ chapters : List (String × List (String × ℝ)),
      (∀ ch ∈ chapters, ∀ q ∈ ch.2, 0 < q.2) →
      ∃ res, task3Results chapters caseV = some res := by
  intro chapters
  induction chapters with
  | nil => intro _; exact ⟨[], rfl⟩
  | cons ch rest ih =>
    intro hch
    obtain ⟨res, hres⟩ := ih (fun c hc => hch c (List.mem_cons_of_mem _ hc))
    have hnotdiv : scorePair ch.2 caseV ≠ PairScore.divisionError := by
      intro hdiv
      rw [scorePair] at hdiv
      by_cases hm : matchesList ch.2 caseV = []
      · rw [if_pos hm] at hdiv
        exact PairScore.noConfusion hdiv
      · rw [if_neg hm] at hdiv
        obtain ⟨p, hp, w, hw⟩ := exists_lookup_of_matches_ne_nil ch.2 caseV hm
        have hA : 0 < sqMagnitude ch.2 :=
          sqMagnitude_pos_of_mem ch.2 (p.1, w) (mem_of_alookup hw)
            (hch ch (List.mem_cons_self _ _) (p.1, w) (mem_of_alookup hw)).ne'
        have hB : 0 < sqMagnitude caseV :=
          sqMagnitude_pos_of_mem caseV p hp (hcase p hp).ne'
        have hmag : 0 < Real.sqrt (sqMagnitude ch.2) * Real.sqrt (sqMagnitude caseV) :=
          mul_pos (Real.sqrt_pos.2 hA) (Real.sqrt_pos.2 hB)
        rw [if_neg hmag.ne'] at hdiv
        exact PairScore.noConfusion hdiv
    rw [task3Results_cons, hres]
    cases hsp : scorePair ch.2 caseV with
    | noMatch => exact ⟨res, rfl⟩
    | divisionError => exact absurd hsp hnotdiv
    | scored s => exact ⟨(ch.1, s) :: res, rfl⟩

/-- C6 amended: a candidate chapter whose vector shares no term with the
case vector is excluded from the ranked output of `task_3` (it appears
nowhere in the result); however the `if matches` guard does not prevent
every zero-norm division — that only holds when all vector weights are
positive, under which assumption `task_3` completes without a division
by zero (see the counterexample for a zero weight). -/
theorem c6_no_shared_terms (chapters : List (String × List (String × ℝ)))
    (caseV : List (String × ℝ)) (limit : ℕ) :
    (∀ cid out, task3 chapters caseV limit = some out →
      (∀ v, (cid, v) ∈ chapters → matchesList v caseV = []) →
      ∀ p ∈ out, p.2 ≠ cid) ∧
    ((∀ ch ∈ chapters, ∀ q ∈ ch.2, 0 < q.2) → (∀ q ∈ caseV, 0 < q.2) →
      ∃ out, task3 chapters caseV limit = some out) := by
  constructor
  · intro cid out hout hnone p hp
    rw [task3] at hout
    obtain ⟨res, hres, rfl⟩ := Option.map_eq_some'.1 hout
    rw [fmtRanking] at hp
    obtain ⟨q, hq, rfl⟩ := List.mem_map.1 hp
    have hq1 : q ∈ sortDesc res := List.mem_of_mem_take hq
    have hq2 : q ∈ res := by
      have hperm := List.perm_insertionSort (fun p q : String × ℝ => q.2 ≤ p.2) res
      rw [sortDesc] at hq1
      exact hperm.mem_iff.1 hq1
    obtain ⟨v, hv, hs⟩ := task3Results_mem caseV chapters res hres q hq2
    intro hpc
    have hcid : (cid, v) ∈ chapters := by
      have hqc : q.1 = cid := hpc
      rw [← hqc]
      exact hv
    have hm := hnone v hcid
    rw [scorePair, if_pos hm] at hs
    exact PairScore.noConfusion hs
  · intro hch hcase
    obtain ⟨res, hres⟩ := task3Results_total caseV hcase chapters hch
    refine ⟨fmtRanking ((sortDesc res).take limit), ?_⟩
    rw [task3, hres]
    rfl

/-- C6 counterexample: a candidate sharing the term t with the case, but
with the case weight 0, passes the `if matches` guard and divides by a
zero magnitude: `task_3` aborts with a ZeroDivisionError, so a division
by a zero norm does occur. -/
theorem c6_counterexample :
    task3 [("C", [("t", (1 : ℝ))])] [("t", (0 : ℝ))] 10 = none := by
  have hsp : scorePair [("t", (1 : ℝ))] [("t", (0 : ℝ))] = PairScore.divisionError := by
    rw [scorePair]
    rw [if_neg (by simp [matchesList, alookup, List.filterMap_cons])]
    rw [if_pos (by norm_num [sqMagnitude])]
  simp [task3, task3Results, hsp]

/-- C6 witness: chapter C shares no term with the case and is absent
from the output; chapter D shares the term t and is ranked; with all
weights positive `task_3` completes. -/
theorem c6_no_shared_terms_witness :
    task3 [("C", [("u", (1 : ℝ))]), ("D", [("t", (2 : ℝ))])] [("t", (1 : ℝ))] 10 =
      some [((1 : ℝ), "D")] ∧
    (∀ p ∈ [((1 : ℝ), "D")], p.2 ≠ "C") ∧
    ∃ out, task3 [("C", [("u", (1 : ℝ))]), ("D", [("t", (2 : ℝ))])] [("t", (1 : ℝ))] 10 =
      some out := by
  have h4 : Real.sqrt 4 = 2 := by
    rw [show (4 : ℝ) = 2 ^ 2 by norm_num, Real.sqrt_sq (by norm_num : (0 : ℝ) ≤ 2)]
  have hsp1 : scorePair [("u", (1 : ℝ))] [("t", (1 : ℝ))] = PairScore.noMatch := by
    rw [scorePair, if_pos (by simp [matchesList, alookup, List.filterMap_cons])]
  have hsp2 : scorePair [("t", (2 : ℝ))] [("t", (1 : ℝ))] = PairScore.scored 1 := by
    rw [scorePair]
    rw [if_neg (by simp [matchesList, alookup, List.filterMap_cons])]
    rw [if_neg (by norm_num [sqMagnitude, h4, Real.sqrt_one])]
    norm_num [matchesList, alookup, List.filterMap_cons, sqMagnitude, h4, Real.sqrt_one]
  have hr2 : round2 (1 : ℝ) = 1 := by rw [round2]; norm_num [round_eq]
  have heval : task3 [("C", [("u", (1 : ℝ))]), ("D", [("t", (2 : ℝ))])] [("t", (1 : ℝ))] 10 =
      some [((1 : ℝ), "D")] := by
    simp [task3, task3Results, hsp1, hsp2, sortDesc, List.insertionSort,
      List.orderedInsert, fmtRanking, hr2]
  have hclosed : ∀ v, ("C", v) ∈ [("C", [("u", (1 : ℝ))]), ("D", [("t", (2 : ℝ))])] →
      matchesList v [("t", (1 : ℝ))] = [] := by
    intro v hv
    rcases List.mem_cons.1 hv with hv1 | hv2
    · obtain rfl : v = [("u", (1 : ℝ))] := congrArg Prod.snd hv1
      simp [matchesList, alookup, List.filterMap_cons]
    · simp at hv2
  refine ⟨heval,
    (c6_no_shared_terms [("C", [("u", (1 : ℝ))]), ("D", [("t", (2 : ℝ))])]
      [("t", (1 : ℝ))] 10).1 "C" [((1 : ℝ), "D")] heval hclosed,
    (c6_no_shared_terms [("C", [("u", (1 : ℝ))]), ("D", [("t", (2 : ℝ))])]
      [("t", (1 : ℝ))] 10).2 (by norm_num) (by norm_num)⟩

theorem round2_mono {x y : ℝ} (h : x ≤ y) : round2 x ≤ round2 y := by
  rw [round2, round2]
  have h1 : round (x * 100) ≤ round (y * 100) := by
    rw [round_eq, round_eq]
    exact Int.floor_le_floor (by linarith)
  have h2 : ((round (x * 100) : ℤ) : ℝ) ≤ ((round (y * 100) : ℤ) : ℝ) := Int.cast_le.2 h1
  linarith

/-- C7 amended: the ranked output of `task_3` is sorted descending by
score; tied candidates are left in the order in which the chapters were
enumerated (Python's stable sort), not re-sorted by identifier — see the
counterexample. -/
theorem c7_sorted (chapters : List (String × List (String × ℝ)))
    (caseV : List (String × ℝ)) (limit : ℕ) (out : List (ℝ × String))
    (h : task3 chapters caseV limit = some out) :
    out.Pairwise (fun p q => q.1 ≤ p.1) := by
  rw [task3] at h
  obtain ⟨res, hres, rfl⟩ := Option.map_eq_some'.1 h
  haveI hto : IsTotal (String × ℝ) (fun p q => q.2 ≤ p.2) := ⟨fun p q => le_total q.2 p.2⟩
  haveI htr : IsTrans (String × ℝ) (fun p q => q.2 ≤ p.2) :=
    ⟨fun p q r h1 h2 => le_trans h2 h1⟩
  have hsorted : (sortDesc res).Pairwise (fun p q : String × ℝ => q.2 ≤ p.2) := by
    rw [sortDesc]
    exact List.sorted_insertionSort _ res
  have htake : ((sortDesc res).take limit).Pairwise (fun p q : String × ℝ => q.2 ≤ p.2) :=
    List.Pairwise.sublist (List.take_sublist _ _) hsorted
  rw [fmtRanking]
  exact List.Pairwise.map _ (fun a b hab => round2_mono hab) htake

/-- C7 counterexample: two chapters with identical vectors tie at score
1.00; they are emitted in `Therapy.ALL` enumeration order (B before A)
even though ascending identifier order would put A first — the claim's
tie-breaking by candidate identifier does not happen. -/
theorem c7_counterexample :
    task3 [("B", [("t", (1 : ℝ))]), ("A", [("t", (1 : ℝ))])] [("t", (1 : ℝ))] 10 =
      some [((1 : ℝ), "B"), ((1 : ℝ), "A")] ∧ ("A" : String) < "B" := by
  constructor
  · have hsp : scorePair [("t", (1 : ℝ))] [("t", (1 : ℝ))] = PairScore.scored 1 := by
      rw [scorePair]
      rw [if_neg (by simp [matchesList, alookup, List.filterMap_cons])]
      rw [if_neg (by norm_num [sqMagnitude])]
      norm_num [matchesList, alookup, List.filterMap_cons, sqMagnitude]
    have hr2 : round2 (1 : ℝ) = 1 := by rw [round2]; norm_num [round_eq]
    simp [task3, task3Results, hsp, sortDesc, List.insertionSort, List.orderedInsert,
      fmtRanking, hr2]
  · rw [String.lt_iff_toList_lt]
    decide

/-- C7 witness: a singleton ranking is (trivially) descending-sorted. -/
theorem c7_sorted_witness :
    task3 [("A", [("t", (1 : ℝ))])] [("t", (1 : ℝ))] 10 = some [((1 : ℝ), "A")] ∧
    ([((1 : ℝ), "A")] : List (ℝ × String)).Pairwise (fun p q => q.1 ≤ p.1) := by
  have hsp : scorePair [("t", (1 : ℝ))] [("t", (1 : ℝ))] = PairScore.scored 1 := by
    rw [scorePair]
    rw [if_neg (by simp [matchesList, alookup, List.filterMap_cons])]
    rw [if_neg (by norm_num [sqMagnitude])]
    norm_num [matchesList, alookup, List.filterMap_cons, sqMagnitude]
  have hr2 : round2 (1 : ℝ) = 1 := by rw [round2]; norm_num [round_eq]
  have heval : task3 [("A", [("t", (1 : ℝ))])] [("t", (1 : ℝ))] 10 =
      some [((1 : ℝ), "A")] := by
    simp [task3, task3Results, hsp, sortDesc, List.insertionSort, List.orderedInsert,
      fmtRanking, hr2]
  exact ⟨heval, c7_sorted [("A", [("t", (1 : ℝ))])] [("t", (1 : ℝ))] 10 _ heval⟩
